import Mathlib

/-!
Verification of the tradecaptain calculation-engine core against its
natural-language specification.

The Rust sources are shallowly embedded: machine integers (usize) are
modelled as Nat with an explicit `% 2 ^ 64` wherever the Rust arithmetic
can wrap, f64 prices and quantities are modelled as exact rationals
(the order book only compares and adds them through a total order, NaN
being excluded at the boundary), the memory-mapped ring region is a
total function from physical byte address to byte value, and Rust
panics are modelled as `Option.none` results.
-/

namespace TradeCaptain

/-- Size of the usize value space on the 64-bit targets this service builds for. -/
def USIZE : Nat := 2 ^ 64

/-- Release-mode wrapping subtraction on usize, for arguments below USIZE. -/
def usizeSub (a b : Nat) : Nat := (USIZE + a - b) % USIZE

/-- Error kinds raised by the ring log (the Rust code uses anyhow string
errors; only the identity of each error site matters here). -/
inductive LogErr
| sizeNotPowerOfTwo
| dataTooLarge
| bufferFull
| readBeyondBufferSize
deriving DecidableEq

instance {ε α : Type} [DecidableEq ε] [DecidableEq α] : DecidableEq (Except ε α) := fun x y =>
  match x, y with
  | .ok a, .ok b => if h : a = b then isTrue (by rw [h]) else isFalse (by simp [h])
  | .error a, .error b => if h : a = b then isTrue (by rw [h]) else isFalse (by simp [h])
  | .ok _, .error _ => isFalse (by simp)
  | .error _, .ok _ => isFalse (by simp)

/-- State of UltraFastLog (ultrafast_log.rs): the memory-mapped region as a
total function over physical byte addresses (the region proper is the
addresses below size; the source's unchecked copy can reach beyond it),
plus the atomic cursors and counters. -/
structure UltraFastLog where
  mem : Nat → Nat
  size : Nat
  mask : Nat
  writePos : Nat
  readPos : Nat
  writesCount : Nat
  bytesWritten : Nat

/-- Rust usize::is_power_of_two (count_ones() == 1, equivalently
nonzero with no carry bit shared between n and n-1). -/
def isPowerOfTwoBool (n : Nat) : Bool := n != 0 && (n &&& (n - 1)) == 0

/-- UltraFastLog::new: size_mb * 1024 * 1024 bytes, rejected unless a power
of two; the freshly mapped file is zero-filled and both cursors start at 0. -/
def UltraFastLog.new (_filePath : String) (sizeMb : Nat) : Except LogErr UltraFastLog :=
  let size := (sizeMb * 1024 * 1024) % USIZE
  if isPowerOfTwoBool size then
    .ok { mem := fun _ => 0, size := size, mask := size - 1,
          writePos := 0, readPos := 0, writesCount := 0, bytesWritten := 0 }
  else .error .sizeNotPowerOfTwo

/-- UltraFastLog::would_overlap, verbatim from the source. -/
def UltraFastLog.wouldOverlap (s : UltraFastLog) (writePos writeLen readPos : Nat) : Bool :=
  let writeEnd := (writePos + writeLen) &&& s.mask
  let readPosMasked := readPos &&& s.mask
  if writePos ≤ writeEnd then
    decide (writePos ≤ readPosMasked) && decide (readPosMasked < writeEnd)
  else
    decide (writePos ≤ readPosMasked) || decide (readPosMasked < writeEnd)

/-- ptr::copy_nonoverlapping of data to physical address pos: a single
contiguous write, not split at the wrap boundary (addresses past the region
end are simply written past it, as the unchecked Rust copy does). -/
def writeBytes (mem : Nat → Nat) (pos : Nat) (data : List Nat) : Nat → Nat :=
  fun a => if pos ≤ a ∧ a < pos + data.length then data.getD (a - pos) 0 else mem a

/-- UltraFastLog::append.  The fetch_add reservation advances write_pos
before the overlap check, so a failed append still moves the cursor. -/
def UltraFastLog.append (s : UltraFastLog) (data : List Nat) : Except LogErr Nat × UltraFastLog :=
  let dataLen := data.length
  if dataLen > s.size / 4 then (.error .dataTooLarge, s)
  else
    let writePos := s.writePos
    let s1 : UltraFastLog := { s with writePos := (s.writePos + dataLen) % USIZE }
    let actualPos := writePos &&& s1.mask
    if s1.wouldOverlap actualPos dataLen s1.readPos then (.error .bufferFull, s1)
    else
      let s2 : UltraFastLog := { s1 with mem := writeBytes s1.mem actualPos data }
      (.ok actualPos,
        { s2 with writesCount := (s2.writesCount + 1) % USIZE,
                  bytesWritten := (s2.bytesWritten + dataLen) % USIZE })

/-- The per-item copy loop of UltraFastLog::batch_append: writes each item at
current_pos & mask and records that physical position. -/
def batchWriteItems (mem : Nat → Nat) (mask : Nat) (currentPos : Nat) :
    List (List Nat) → (Nat → Nat) × List Nat
| [] => (mem, [])
| item :: rest =>
  let actualPos := currentPos &&& mask
  let mem1 := writeBytes mem actualPos item
  let r := batchWriteItems mem1 mask (currentPos + item.length) rest
  (r.1, actualPos :: r.2)

/-- UltraFastLog::batch_append: one reservation for the whole batch, a single
overlap check, per-item copies. -/
def UltraFastLog.batchAppend (s : UltraFastLog) (items : List (List Nat)) :
    Except LogErr (List Nat) × UltraFastLog :=
  let totalSize := (items.map List.length).sum
  if totalSize > s.size / 2 then (.error .dataTooLarge, s)
  else
    let startPos := s.writePos
    let s1 : UltraFastLog := { s with writePos := (s.writePos + totalSize) % USIZE }
    if s1.wouldOverlap (startPos &&& s1.mask) totalSize s1.readPos then (.error .bufferFull, s1)
    else
      let r := batchWriteItems s1.mem s1.mask startPos items
      (.ok r.2,
        { s1 with mem := r.1,
                  writesCount := (s1.writesCount + items.length) % USIZE,
                  bytesWritten := (s1.bytesWritten + totalSize) % USIZE })

/-- UltraFastLog::read_at: rejects position + length > size, otherwise copies
length bytes starting at the physical position. -/
def UltraFastLog.readAt (s : UltraFastLog) (position length : Nat) : Except LogErr (List Nat) :=
  if position + length > s.size then .error .readBeyondBufferSize
  else .ok ((List.range length).map fun i => s.mem (position + i))

/-- UltraFastLog::advance_read_pos. -/
def UltraFastLog.advanceReadPos (s : UltraFastLog) (bytes : Nat) : UltraFastLog :=
  { s with readPos := (s.readPos + bytes) % USIZE }

/-- UltraFastLog::available_space, with the release-mode wrapping
subtraction size - (write_pos - read_pos). -/
def UltraFastLog.availableSpace (s : UltraFastLog) : Nat :=
  if s.readPos ≤ s.writePos then usizeSub s.size (s.writePos - s.readPos)
  else s.readPos - s.writePos

/-- States of the log reachable through its public mutating interface. -/
inductive LogReachable : UltraFastLog → Prop
| init (filePath : String) (sizeMb : Nat) (s : UltraFastLog) :
    UltraFastLog.new filePath sizeMb = .ok s → LogReachable s
| append (s : UltraFastLog) (data : List Nat) :
    LogReachable s → LogReachable (s.append data).2
| batchAppend (s : UltraFastLog) (items : List (List Nat)) :
    LogReachable s → LogReachable (s.batchAppend items).2
| advanceRead (s : UltraFastLog) (bytes : Nat) :
    LogReachable s → LogReachable (s.advanceReadPos bytes)

/-- The path name passed to the constructor in the concrete runs below
(the file contents never matter: the mapping starts zero-filled). -/
def logFileName : String := "/tmp/tradecaptain.log"

/-- A fresh 1 MiB log, as UltraFastLog::new(path, 1) produces it. -/
def freshLog1 : UltraFastLog :=
  { mem := fun _ => 0, size := 1048576, mask := 1048575,
    writePos := 0, readPos := 0, writesCount := 0, bytesWritten := 0 }

/-- Byte payloads for the concrete ring-log runs below; only their lengths
and positions matter for the cursor arithmetic. -/
def c2dataA : List Nat := List.replicate 262144 3

/-- A 262142-byte payload (two bytes short of size/4). -/
def c2dataB : List Nat := List.replicate 262142 5

/-- History for the C2 counterexample, step 1: reader advanced to 524288. -/
def c2log1 : UltraFastLog := freshLog1.advanceReadPos 524288

/-- Step 2: the state after a successful batch of 524286 bytes moved W to
524286 (shown below to be what batch_append produces from c2log1). -/
def c2log2 : UltraFastLog :=
  { c2log1 with
    writePos := 524286,
    mem := (batchWriteItems c2log1.mem c2log1.mask c2log1.writePos [c2dataA, c2dataB]).1,
    writesCount := 2,
    bytesWritten := 524286 }

/-- Step 3: the state after a failed batch of 524288 bytes still moved W to
1048574 (shown below to be what batch_append produces from c2log2). -/
def c2log3 : UltraFastLog := { c2log2 with writePos := 1048574 }

/-- Small payload for the C2 witness. -/
def wData : List Nat := [10, 20, 30]

/-- Log for the C2 witness: fresh log with the reader advanced by 8 so that
the first append is accepted. -/
def c2wit : UltraFastLog := freshLog1.advanceReadPos 8

/-! ## Price array and moving average (cache_optimized.rs) -/

/-- CacheOptimizedMarketData: the 64-byte tick record.  The 8 symbol bytes
are a list of byte values; f64/f32 fields are modelled as rationals. -/
structure CacheOptimizedMarketData where
  symbol : List Nat
  price : ℚ
  volume : Nat
  timestamp : Nat
  bid : ℚ
  ask : ℚ
  high : ℚ
  low : ℚ
  sequence : Nat
deriving DecidableEq

/-- CacheOptimizedPriceArray: Structure-of-Arrays price history.  Each
backing buffer has capacity entries, zero-initialized; length counts the
entries pushed so far.  A Rust panic is modelled as none. -/
structure CacheOptimizedPriceArray where
  capacity : Nat
  length : Nat
  prices : List ℚ
  volumes : List Nat
  timestamps : List Nat
  symbols : List (List Nat)
deriving DecidableEq

/-- CacheOptimizedPriceArray::new: capacity-sized zero-initialized buffers. -/
def CacheOptimizedPriceArray.new (capacity : Nat) : CacheOptimizedPriceArray :=
  { capacity := capacity, length := 0,
    prices := List.replicate capacity 0,
    volumes := List.replicate capacity 0,
    timestamps := List.replicate capacity 0,
    symbols := List.replicate capacity (List.replicate 8 0) }

/-- CacheOptimizedPriceArray::push: the source raises an explicit Rust panic
("Array capacity exceeded") when length >= capacity; that aborting path is
the none result. -/
def CacheOptimizedPriceArray.push (a : CacheOptimizedPriceArray)
    (data : CacheOptimizedMarketData) : Option CacheOptimizedPriceArray :=
  if a.capacity ≤ a.length then none
  else some { a with
    prices := a.prices.set a.length data.price,
    volumes := a.volumes.set a.length data.volume,
    timestamps := a.timestamps.set a.length data.timestamp,
    symbols := a.symbols.set a.length data.symbol,
    length := a.length + 1 }

/-- CacheOptimizedPriceArray::update_prices_vectorized: panics ("Index out
of bounds", modelled as none) when start_idx + new_prices.len() > length;
otherwise overwrites prices[start_idx ..]. -/
def CacheOptimizedPriceArray.updatePricesVectorized (a : CacheOptimizedPriceArray)
    (startIdx : Nat) (newPrices : List ℚ) : Option CacheOptimizedPriceArray :=
  if a.length < startIdx + newPrices.length then none
  else some { a with
    prices := a.prices.take startIdx ++ newPrices ++ a.prices.drop (startIdx + newPrices.length) }

/-- CacheOptimizedPriceArray::get_prices_slice: panics ("Index out of
bounds", modelled as none) when start + len > length. -/
def CacheOptimizedPriceArray.getPricesSlice (a : CacheOptimizedPriceArray)
    (start len : Nat) : Option (List ℚ) :=
  if a.length < start + len then none
  else some ((a.prices.drop start).take len)

/-- CacheOptimizedMovingAverage state: circular buffer, write index,
running sum, fill count, period, filled flag. -/
structure MovingAverage where
  buffer : List ℚ
  index : Nat
  sum : ℚ
  count : Nat
  period : Nat
  filled : Bool
deriving DecidableEq

/-- CacheOptimizedMovingAverage::new. -/
def MovingAverage.new (period : Nat) : MovingAverage :=
  { buffer := List.replicate period 0, index := 0, sum := 0,
    count := 0, period := period, filled := false }

/-- CacheOptimizedMovingAverage::add.  buffer[index] panics (none) when the
buffer is empty, and (index + 1) % period panics (none) when period = 0;
with period >= 1 both are unreachable and the call returns the state and
the updated average. -/
def MovingAverage.add (s : MovingAverage) (value : ℚ) : Option (MovingAverage × ℚ) :=
  match s.buffer[s.index]? with
  | none => none
  | some oldValue =>
    if s.period = 0 then none
    else
      let buffer := s.buffer.set s.index value
      let (sum, count, filled) :=
        if s.filled then (s.sum - oldValue + value, s.count, s.filled)
        else (s.sum + value, s.count + 1, decide (s.count + 1 = s.period))
      let index := (s.index + 1) % s.period
      let out := if filled then sum / (s.period : ℚ) else sum / (count : ℚ)
      some ({ buffer := buffer, index := index, sum := sum, count := count,
              period := s.period, filled := filled }, out)

/-- Feed a list of inputs through MovingAverage::add, collecting the
returned averages; none if any call panics. -/
def MovingAverage.run : MovingAverage → List ℚ → Option (MovingAverage × List ℚ)
| s, [] => some (s, [])
| s, x :: xs =>
  match s.add x with
  | none => none
  | some (s', y) =>
    match MovingAverage.run s' xs with
    | none => none
    | some (s'', ys) => some (s'', y :: ys)

/-- The list of averages produced by a fresh period-P moving average on xs. -/
def MovingAverage.outputs (P : Nat) (xs : List ℚ) : Option (List ℚ) :=
  (MovingAverage.run (MovingAverage.new P) xs).map Prod.snd

/-- Claimed output of the k-th call (0-indexed n): the mean of the last
min(n+1, P) inputs. -/
def winAvg (P : Nat) (xs : List ℚ) (n : Nat) : ℚ :=
  (∑ t ∈ Finset.Ico (n + 1 - min (n + 1) P) (n + 1), xs.getD t 0) / ((min (n + 1) P : Nat) : ℚ)

/-- The slot contents of the circular buffer after the first n inputs of xs:
slot j holds the most recent input whose index is congruent to j mod P,
or the initial 0.0 if no input has landed there yet. -/
def bufVal (P : Nat) (xs : List ℚ) (n : Nat) (j : Nat) : ℚ :=
  if j < n % P then xs.getD (n - n % P + j) 0
  else if P ≤ n then xs.getD (n - n % P - P + j) 0
  else 0

/-- Coherence of a MovingAverage state with the history of the first n
inputs of xs. -/
def MAModels (P : Nat) (xs : List ℚ) (n : Nat) (s : MovingAverage) : Prop :=
  s.period = P ∧
  s.buffer.length = P ∧
  s.index = n % P ∧
  s.count = min n P ∧
  s.filled = decide (P ≤ n) ∧
  s.sum = ∑ t ∈ Finset.Ico (n - min n P) n, xs.getD t 0 ∧
  ∀ j, j < P → s.buffer.getD j 0 = bufVal P xs n j

/-- Concrete market-data record used by the C4 run. -/
def mdEx : CacheOptimizedMarketData :=
  { symbol := [65, 65, 80, 76, 0, 0, 0, 0], price := 150, volume := 1000,
    timestamp := 0, bid := 149, ask := 151, high := 150, low := 150, sequence := 0 }

/-! ## Order book (orderbook.rs) -/

/-- Order side. -/
inductive Side
| Buy
| Sell
deriving DecidableEq

/-- PriceLevel: aggregate resting interest at one price. -/
structure PriceLevel where
  price : ℚ
  size : ℚ
  orderCount : Nat
  timestamp : Nat
deriving DecidableEq

/-- Order: book input. -/
structure Order where
  orderId : String
  side : Side
  price : ℚ
  quantity : ℚ
  timestamp : Nat
deriving DecidableEq

/-- One side of the book: the BTreeMap of price -> PriceLevel, abstracted as
an association list strictly sorted by ascending key. -/
abbrev Ladder := List (ℚ × PriceLevel)

/-- The key list of a ladder. -/
def Ladder.keys (l : Ladder) : List ℚ := l.map Prod.fst

/-- BTreeMap::get. -/
def Ladder.find? : Ladder → ℚ → Option PriceLevel
| [], _ => none
| (k', v) :: t, k => if k = k' then some v else Ladder.find? t k

/-- BTreeMap::entry(k).or_insert_with(dflt) followed by a mutation f of the
entry: update the value at k if present, otherwise insert f dflt at the
sorted position. -/
def Ladder.updOrIns (f : PriceLevel → PriceLevel) (dflt : PriceLevel) :
    Ladder → ℚ → Ladder
| [], k => [(k, f dflt)]
| (k', v) :: t, k =>
  if k < k' then (k, f dflt) :: (k', v) :: t
  else if k = k' then (k', f v) :: t
  else (k', v) :: Ladder.updOrIns f dflt t k

/-- Mutation through BTreeMap::get_mut: apply f to the value at k when
present, leave the map unchanged otherwise. -/
def Ladder.update (f : PriceLevel → PriceLevel) : Ladder → ℚ → Ladder
| [], _ => []
| (k', v) :: t, k =>
  if k = k' then (k', f v) :: t else (k', v) :: Ladder.update f t k

/-- BTreeMap::remove (by key). -/
def Ladder.erase : Ladder → ℚ → Ladder
| [], _ => []
| (k', v) :: t, k => if k = k' then t else (k', v) :: Ladder.erase t k

/-- keys().next() on the ascending map: the minimum key. -/
def Ladder.minKey (l : Ladder) : Option ℚ := (Ladder.keys l).head?

/-- keys().next_back() on the ascending map: the maximum key. -/
def Ladder.maxKey (l : Ladder) : Option ℚ := (Ladder.keys l).getLast?

/-- Error kinds of OrderBook::remove_quantity (the Rust code formats string
messages; only the identity of each error site matters here). -/
inductive BookErr
| insufficientSize
| notFound
deriving DecidableEq

/-- OrderBook state. -/
structure OrderBook where
  symbol : String
  bids : Ladder
  asks : Ladder
  bestBid : Option ℚ
  bestAsk : Option ℚ
  sequence : Nat
  totalBidVolume : ℚ
  totalAskVolume : ℚ
  lastUpdateTime : Nat
deriving DecidableEq

/-- OrderBook::new.  The construction timestamp is passed in (the source
reads the system clock). -/
def OrderBook.new (symbol : String) (now : Nat) : OrderBook :=
  { symbol := symbol, bids := [], asks := [], bestBid := none, bestAsk := none,
    sequence := 0, totalBidVolume := 0, totalAskVolume := 0, lastUpdateTime := now }

/-- OrderBook::add_order.  The Rust function returns Result<(), String> but
always Ok(()); sequence and last_update_time are bumped first.  now stands
for current_timestamp_nanos(). -/
def OrderBook.addOrder (b : OrderBook) (o : Order) (now : Nat) : OrderBook :=
  let b1 := { b with sequence := b.sequence + 1, lastUpdateTime := now }
  match o.side with
  | .Buy =>
    let dflt : PriceLevel := { price := o.price, size := 0, orderCount := 0, timestamp := o.timestamp }
    let f : PriceLevel → PriceLevel := fun lv =>
      { lv with size := lv.size + o.quantity, orderCount := lv.orderCount + 1,
                timestamp := o.timestamp }
    let bids := Ladder.updOrIns f dflt b1.bids o.price
    let bestBid :=
      match b1.bestBid with
      | none => some o.price
      | some bb => if bb < o.price then some o.price else some bb
    { b1 with bids := bids, totalBidVolume := b1.totalBidVolume + o.quantity,
              bestBid := bestBid }
  | .Sell =>
    let dflt : PriceLevel := { price := o.price, size := 0, orderCount := 0, timestamp := o.timestamp }
    let f : PriceLevel → PriceLevel := fun lv =>
      { lv with size := lv.size + o.quantity, orderCount := lv.orderCount + 1,
                timestamp := o.timestamp }
    let asks := Ladder.updOrIns f dflt b1.asks o.price
    let bestAsk :=
      match b1.bestAsk with
      | none => some o.price
      | some ba => if o.price < ba then some o.price else some ba
    { b1 with asks := asks, totalAskVolume := b1.totalAskVolume + o.quantity,
              bestAsk := bestAsk }

/-- OrderBook::remove_quantity.  sequence and last_update_time are bumped
before any validation, so a failed call still returns the bumped state. -/
def OrderBook.removeQuantity (b : OrderBook) (side : Side) (price quantity : ℚ)
    (now : Nat) : Except BookErr Unit × OrderBook :=
  let b1 := { b with sequence := b.sequence + 1, lastUpdateTime := now }
  match side with
  | .Buy =>
    match Ladder.find? b1.bids price with
    | none => (.error .notFound, b1)
    | some lv =>
      if lv.size < quantity then (.error .insufficientSize, b1)
      else
        let bids1 := Ladder.update (fun l => { l with size := l.size - quantity }) b1.bids price
        let b2 := { b1 with bids := bids1, totalBidVolume := b1.totalBidVolume - quantity }
        if lv.size - quantity ≤ 0 then
          let bids2 := Ladder.erase b2.bids price
          let bestBid := if some price = b2.bestBid then Ladder.maxKey bids2 else b2.bestBid
          (.ok (), { b2 with bids := bids2, bestBid := bestBid })
        else (.ok (), b2)
  | .Sell =>
    match Ladder.find? b1.asks price with
    | none => (.error .notFound, b1)
    | some lv =>
      if lv.size < quantity then (.error .insufficientSize, b1)
      else
        let asks1 := Ladder.update (fun l => { l with size := l.size - quantity }) b1.asks price
        let b2 := { b1 with asks := asks1, totalAskVolume := b1.totalAskVolume - quantity }
        if lv.size - quantity ≤ 0 then
          let asks2 := Ladder.erase b2.asks price
          let bestAsk := if some price = b2.bestAsk then Ladder.minKey asks2 else b2.bestAsk
          (.ok (), { b2 with asks := asks2, bestAsk := bestAsk })
        else (.ok (), b2)

/-- BestBidOffer: Level-1 snapshot. -/
structure BestBidOffer where
  symbol : String
  bidPrice : Option ℚ
  bidSize : Option ℚ
  askPrice : Option ℚ
  askSize : Option ℚ
  spread : Option ℚ
  midPrice : Option ℚ
  timestamp : Nat
deriving DecidableEq

/-- OrderBook::get_best_bid_offer. -/
def OrderBook.getBestBidOffer (b : OrderBook) : BestBidOffer :=
  let bidLevel := b.bestBid.bind (fun p => Ladder.find? b.bids p)
  let askLevel := b.bestAsk.bind (fun p => Ladder.find? b.asks p)
  let spread :=
    match b.bestBid, b.bestAsk with
    | some bid, some ask => some (ask - bid)
    | _, _ => none
  let midPrice :=
    match b.bestBid, b.bestAsk with
    | some bid, some ask => some ((bid + ask) / 2)
    | _, _ => none
  { symbol := b.symbol, bidPrice := b.bestBid, bidSize := bidLevel.map (fun l => l.size),
    askPrice := b.bestAsk, askSize := askLevel.map (fun l => l.size),
    spread := spread, midPrice := midPrice, timestamp := b.lastUpdateTime }

/-- OrderBook::clear. -/
def OrderBook.clear (b : OrderBook) (now : Nat) : OrderBook :=
  { b with bids := [], asks := [], bestBid := none, bestAsk := none,
           totalBidVolume := 0, totalAskVolume := 0,
           sequence := b.sequence + 1, lastUpdateTime := now }

/-- The levels visited by OrderBook::calculate_vwap: bids in descending
order (iter().rev()), asks in ascending order, truncated to depth. -/
def OrderBook.vwapLevels (b : OrderBook) (side : Side) (depth : Nat) : Ladder :=
  match side with
  | .Buy => b.bids.reverse.take depth
  | .Sell => b.asks.take depth

/-- The (total_volume, weighted_sum) fold of OrderBook::calculate_vwap. -/
def OrderBook.vwapFold (b : OrderBook) (side : Side) (depth : Nat) : ℚ × ℚ :=
  (b.vwapLevels side depth).foldl
    (fun acc kl => (acc.1 + kl.2.size, acc.2 + kl.1 * kl.2.size)) (0, 0)

/-- OrderBook::calculate_vwap. -/
def OrderBook.calculateVwap (b : OrderBook) (side : Side) (depth : Nat) : Option ℚ :=
  let r := b.vwapFold side depth
  if 0 < r.1 then some (r.2 / r.1) else none

/-- Operations on one book covered by the C3 history. -/
inductive BookOp
| add (o : Order) (now : Nat)
| remove (side : Side) (price quantity : ℚ) (now : Nat)
deriving DecidableEq

/-- Apply one operation (results discarded, state kept, as in a call
sequence against &mut self). -/
def applyBookOp (b : OrderBook) : BookOp → OrderBook
| .add o now => b.addOrder o now
| .remove side price quantity now => (b.removeQuantity side price quantity now).2

/-- Run a history of operations from a starting book. -/
def runBook (b : OrderBook) (ops : List BookOp) : OrderBook := ops.foldl applyBookOp b

/-- Valid input per the claim: positive price and quantity (NaN cannot be
represented in ℚ). -/
def validBookOp : BookOp → Bool
| .add o _ => decide (0 < o.price) && decide (0 < o.quantity)
| .remove _ price quantity _ => decide (0 < price) && decide (0 < quantity)

/-- Strict ascending order of the ladder keys: the sortedness invariant the
BTreeMap abstraction carries. -/
def Ladder.SortedKeys (l : Ladder) : Prop := List.Sorted (· < ·) (Ladder.keys l)

/-- The order-book invariant at stake in C3, plus the sortedness of the two
ladders that backs it. -/
def BookInv (b : OrderBook) : Prop :=
  Ladder.SortedKeys b.bids ∧ Ladder.SortedKeys b.asks ∧
  b.bestBid = Ladder.maxKey b.bids ∧ b.bestAsk = Ladder.minKey b.asks

/-- The property C3 claims of every reachable book: cached bests agree with
the map extremes and get_best_bid_offer reports those prices with the size
stored at the corresponding level. -/
def bestQuoteAligned (b : OrderBook) : Prop :=
  b.bestBid = Ladder.maxKey b.bids ∧
  b.bestAsk = Ladder.minKey b.asks ∧
  (b.getBestBidOffer).bidPrice = Ladder.maxKey b.bids ∧
  (b.getBestBidOffer).askPrice = Ladder.minKey b.asks ∧
  (b.getBestBidOffer).bidSize
    = (Ladder.maxKey b.bids).bind (fun p => (Ladder.find? b.bids p).map (fun l => l.size)) ∧
  (b.getBestBidOffer).askSize
    = (Ladder.minKey b.asks).bind (fun p => (Ladder.find? b.asks p).map (fun l => l.size))

/-- Key-list image of Ladder.updOrIns: sorted insertion (no duplicate). -/
def insertKey (k : ℚ) : List ℚ → List ℚ
| [] => [k]
| k' :: t => if k < k' then k :: k' :: t else if k = k' then k' :: t else k' :: insertKey k t

/-- Key-list image of Ladder.erase: drop the first occurrence of k. -/
def eraseKey (k : ℚ) : List ℚ → List ℚ
| [] => []
| k' :: t => if k = k' then t else k' :: eraseKey k t

/-- Fold computing the maximum of an optional running maximum and a key. -/
def optMax (m : Option ℚ) (k : ℚ) : ℚ :=
  match m with
  | none => k
  | some v => max v k

/-- Fold computing the minimum of an optional running minimum and a key. -/
def optMin (m : Option ℚ) (k : ℚ) : ℚ :=
  match m with
  | none => k
  | some v => min v k

/-- Book symbol used in the concrete runs. -/
def symAAPL : String := "AAPL"

/-- Concrete operation history exercising C3's witness. -/
def opsC3 : List BookOp :=
  [ .add { orderId := symAAPL, side := .Buy, price := 150, quantity := 100, timestamp := 1 } 1,
    .add { orderId := symAAPL, side := .Sell, price := 3001/20, quantity := 200, timestamp := 2 } 2,
    .add { orderId := symAAPL, side := .Buy, price := 149, quantity := 50, timestamp := 3 } 3,
    .remove .Buy 150 100 4,
    .remove .Sell (3001/20) 50 5 ]

/-- A concrete buy order for the witnesses. -/
def ordEx : Order :=
  { orderId := symAAPL, side := .Buy, price := 150, quantity := 100, timestamp := 1 }

/-- A concrete sell order for the witnesses. -/
def ordSellEx : Order :=
  { orderId := symAAPL, side := .Sell, price := 3001/20, quantity := 200, timestamp := 1 }

/-- The single bid level of the C6 witness book. -/
def lvBid : PriceLevel := { price := 150, size := 100, orderCount := 1, timestamp := 1 }

/-- The single ask level of the C6 witness book. -/
def lvAsk : PriceLevel := { price := 3001/20, size := 200, orderCount := 1, timestamp := 1 }

/-- One-bid book for the C6 witness (the state add_order reaches from a
fresh book). -/
def bookA : OrderBook :=
  { (OrderBook.new symAAPL 0) with
    bids := [(150, lvBid)], bestBid := some 150,
    sequence := 1, totalBidVolume := 100, lastUpdateTime := 1 }

/-- One-ask book for the C6 witness. -/
def bookB : OrderBook :=
  { (OrderBook.new symAAPL 0) with
    asks := [(3001/20, lvAsk)], bestAsk := some (3001/20),
    sequence := 1, totalAskVolume := 200, lastUpdateTime := 1 }

/-! ## NUMA scheduler (numa_optimizer.rs) -/

/-- NumaNode: per-node topology data. -/
structure NumaNode where
  id : Nat
  cpus : List Nat
  memoryGb : ℚ
  localLatencyNs : Nat
deriving DecidableEq

/-- NumaTopology. -/
structure NumaTopology where
  nodes : List NumaNode
  totalNodes : Nat
  currentNode : Nat
deriving DecidableEq

/-- The six well-known service names. -/
def svcMarketDataIngestion : String := "market_data_ingestion"

/-- Service name constant. -/
def svcOrderProcessing : String := "order_processing"

/-- Service name constant. -/
def svcRiskCalculation : String := "risk_calculation"

/-- Service name constant. -/
def svcPortfolioCalculation : String := "portfolio_calculation"

/-- Service name constant. -/
def svcTechnicalAnalysis : String := "technical_analysis"

/-- Service name constant. -/
def svcNewsProcessing : String := "news_processing"

/-- NumaScheduler::setup_trading_assignments: the HashMap of service ->
node insertions, as an association list (all keys distinct). -/
def setupTradingAssignments (topo : NumaTopology) : List (String × Nat) :=
  if topo.totalNodes < 2 then []
  else
    match topo.totalNodes with
    | 2 =>
      [ (svcMarketDataIngestion, 0), (svcOrderProcessing, 0),
        (svcRiskCalculation, 1), (svcPortfolioCalculation, 1) ]
    | 4 =>
      [ (svcMarketDataIngestion, 0), (svcOrderProcessing, 1),
        (svcRiskCalculation, 2), (svcPortfolioCalculation, 3) ]
    | _ =>
      ([ svcMarketDataIngestion, svcOrderProcessing, svcRiskCalculation,
         svcPortfolioCalculation, svcTechnicalAnalysis, svcNewsProcessing ]).enum.map
        (fun si => (si.2, si.1 % topo.totalNodes))

/-- NumaScheduler: detected topology plus the service assignments computed
at construction. -/
structure NumaScheduler where
  topology : NumaTopology
  threadAssignments : List (String × Nat)
deriving DecidableEq

/-- NumaScheduler::new for a given detected topology (topology detection
itself reads /sys and is I/O). -/
def NumaScheduler.create (topo : NumaTopology) : NumaScheduler :=
  { topology := topo, threadAssignments := setupTradingAssignments topo }

/-- NumaScheduler::get_node_for_service: assignment lookup with the current
node as fallback. -/
def NumaScheduler.getNodeForService (s : NumaScheduler) (service : String) : Nat :=
  (s.threadAssignments.lookup service).getD s.topology.currentNode

/-- A concrete dual-socket topology for the C8 witness. -/
def topo2 : NumaTopology :=
  { nodes :=
      [ { id := 0, cpus := [0, 1, 2, 3], memoryGb := 32, localLatencyNs := 100 },
        { id := 1, cpus := [4, 5, 6, 7], memoryGb := 32, localLatencyNs := 100 } ],
    totalNodes := 2, currentNode := 0 }

theorem new_one_eq_freshLog1 : UltraFastLog.new logFileName 1 = .ok freshLog1 := by rfl

theorem usizeSub_of_le {a b : Nat} (hba : b ≤ a) (ha : a < USIZE) : usizeSub a b = a - b := by
  unfold usizeSub
  have h1 : USIZE + a - b = USIZE + (a - b) := by omega
  rw [h1, Nat.add_mod_left]
  exact Nat.mod_eq_of_lt (by omega)

theorem append_size (s : UltraFastLog) (data : List Nat) :
    (s.append data).2.size = s.size := by
  unfold UltraFastLog.append
  dsimp only
  split
  · rfl
  · split <;> rfl

theorem batchAppend_size (s : UltraFastLog) (items : List (List Nat)) :
    (s.batchAppend items).2.size = s.size := by
  unfold UltraFastLog.batchAppend
  dsimp only
  split
  · rfl
  · split <;> rfl

theorem logReachable_size_lt {s : UltraFastLog} (h : LogReachable s) : s.size < USIZE := by
  induction h with
  | init fp mb s hnew =>
    unfold UltraFastLog.new at hnew
    dsimp only at hnew
    split at hnew
    · cases hnew
      exact Nat.mod_lt _ (by norm_num [USIZE])
    · cases hnew
  | append s data _ ih => rw [append_size]; exact ih
  | batchAppend s items _ ih => rw [batchAppend_size]; exact ih
  | advanceRead s n _ ih => exact ih

/-- Elimination for a buffer-full append: the reservation has already moved
the write cursor, nothing else changed. -/
theorem append_bufferFull_state (s : UltraFastLog) (data : List Nat)
    (h : (s.append data).1 = .error .bufferFull) :
    (s.append data).2 = { s with writePos := (s.writePos + data.length) % USIZE } := by
  unfold UltraFastLog.append at h ⊢
  dsimp only at h ⊢
  split at h
  next hc1 => exact absurd h (by simp)
  next hc1 =>
    rw [if_neg hc1]
    split at h
    next hc2 => rw [if_pos hc2]
    next hc2 => exact absurd h (by simp)

/-- Elimination for a successful append: the returned position is the masked
old cursor and the final state is the reserved-write-counted update. -/
theorem append_ok_state (s : UltraFastLog) (data : List Nat) (pos : Nat)
    (h : (s.append data).1 = .ok pos) :
    pos = s.writePos &&& s.mask ∧
    (s.append data).2 =
      { s with writePos := (s.writePos + data.length) % USIZE,
               mem := writeBytes s.mem (s.writePos &&& s.mask) data,
               writesCount := (s.writesCount + 1) % USIZE,
               bytesWritten := (s.bytesWritten + data.length) % USIZE } := by
  unfold UltraFastLog.append at h ⊢
  dsimp only at h ⊢
  split at h
  next hc1 => exact absurd h (by simp)
  next hc1 =>
    rw [if_neg hc1]
    split at h
    next hc2 => exact absurd h (by simp)
    next hc2 =>
      rw [if_neg hc2]
      refine ⟨?_, rfl⟩
      simpa using h.symm

/-- C1: the buffer-full law fails at its base case: on a fresh 1 MiB log
(write and read cursors both 0) the very first append of 4 bytes is
rejected with the buffer-full error, because would_overlap counts the
reader position R = 0 as lying inside the fresh reservation [0, 4). -/
theorem C1_first_append_to_fresh_log_fails :
    (UltraFastLog.new logFileName 1).map
        (fun s => (s.append (List.replicate 4 7)).1) =
      .ok (.error .bufferFull) := by
  rw [new_one_eq_freshLog1]
  decide

/-- C7 counterexample: the single-call history advance_read_pos(2) on a
fresh 1 MiB log is reachable, yet available_space() returns R − W = 2
while S − (W − R) = 1048576 − (0 − 2) = 1048578. -/
theorem C7_advanced_reader_breaks_formula :
    (freshLog1.advanceReadPos 2).availableSpace = 2 ∧
    ((freshLog1.advanceReadPos 2).size : Int) -
        (((freshLog1.advanceReadPos 2).writePos : Int) -
          ((freshLog1.advanceReadPos 2).readPos : Int)) = 1048578 ∧
    ((freshLog1.advanceReadPos 2).availableSpace : Int) ≠
      ((freshLog1.advanceReadPos 2).size : Int) -
        (((freshLog1.advanceReadPos 2).writePos : Int) -
          ((freshLog1.advanceReadPos 2).readPos : Int)) := by
  refine ⟨by decide, by decide, by decide⟩

/-- C7 (amended): at every reachable state in which the reader does not lead
the writer (R ≤ W) and the occupancy is within capacity (W − R ≤ S),
available_space() equals S − (W − R). -/
theorem C7_available_space_formula (s : UltraFastLog) (h : LogReachable s)
    (hrw : s.readPos ≤ s.writePos) (hocc : s.writePos - s.readPos ≤ s.size) :
    (s.availableSpace : Int) = (s.size : Int) - ((s.writePos : Int) - (s.readPos : Int)) := by
  have hsz := logReachable_size_lt h
  unfold UltraFastLog.availableSpace
  rw [if_pos hrw, usizeSub_of_le hocc hsz]
  omega

/-- C7 amended-claim witness: the fresh 1 MiB log. -/
theorem C7_available_space_formula_witness :
    (freshLog1.availableSpace : Int) =
      (freshLog1.size : Int) - ((freshLog1.writePos : Int) - (freshLog1.readPos : Int)) :=
  C7_available_space_formula freshLog1
    (LogReachable.init logFileName 1 freshLog1 new_one_eq_freshLog1)
    (by decide) (by decide)

/-- C9: an append rejected with the buffer-full error has already advanced
W by len(data) through the fetch-add reservation: the state keeps the moved
cursor, no bytes are copied, the write/byte counters are untouched, and
(when the occupancy stays within capacity) available_space shrinks by
exactly len(data). -/
theorem C9_failed_append_consumes_space (s : UltraFastLog) (data : List Nat)
    (hfail : (s.append data).1 = .error .bufferFull)
    (hrw : s.readPos ≤ s.writePos)
    (hocc : s.writePos + data.length - s.readPos ≤ s.size)
    (hsz : s.size < USIZE)
    (hw : s.writePos + data.length < USIZE) :
    (s.append data).2.writePos = s.writePos + data.length ∧
    (s.append data).2.mem = s.mem ∧
    (s.append data).2.writesCount = s.writesCount ∧
    (s.append data).2.bytesWritten = s.bytesWritten ∧
    (s.append data).2.readPos = s.readPos ∧
    (s.append data).2.availableSpace + data.length = s.availableSpace := by
  rw [append_bufferFull_state s data hfail]
  have hwp : (s.writePos + data.length) % USIZE = s.writePos + data.length :=
    Nat.mod_eq_of_lt hw
  refine ⟨hwp, rfl, rfl, rfl, rfl, ?_⟩
  unfold UltraFastLog.availableSpace
  dsimp only
  rw [hwp, if_pos (by omega), if_pos hrw,
    usizeSub_of_le (by omega) hsz, usizeSub_of_le (by omega) hsz]
  omega

/-- C9 witness: on the fresh 1 MiB log the first 4-byte append fails with
buffer-full, and the conclusions evaluate there. -/
theorem C9_failed_append_consumes_space_witness :
    (freshLog1.append (List.replicate 4 7)).2.writePos = freshLog1.writePos + 4 ∧
    (freshLog1.append (List.replicate 4 7)).2.mem = freshLog1.mem ∧
    (freshLog1.append (List.replicate 4 7)).2.writesCount = freshLog1.writesCount ∧
    (freshLog1.append (List.replicate 4 7)).2.bytesWritten = freshLog1.bytesWritten ∧
    (freshLog1.append (List.replicate 4 7)).2.readPos = freshLog1.readPos ∧
    (freshLog1.append (List.replicate 4 7)).2.availableSpace + 4 = freshLog1.availableSpace := by
  have h := C9_failed_append_consumes_space freshLog1 (List.replicate 4 7)
    (by decide) (by decide) (by decide) (by decide) (by decide)
  simpa using h

theorem map_range_getD {α : Type} (xs : List α) (d : α) :
    (List.range xs.length).map (fun i => xs.getD i d) = xs := by
  induction xs with
  | nil => rfl
  | cons x t ih =>
    rw [List.length_cons, List.range_succ_eq_map, List.map_cons, List.map_map]
    have hcomp : ((fun i => (x :: t).getD i d) ∘ Nat.succ) = fun i => t.getD i d := by
      funext i
      simp [List.getD]
    rw [hcomp, ih]
    simp [List.getD]

/-- Forward evaluation of a successful append. -/
theorem append_ok_eval (s : UltraFastLog) (data : List Nat)
    (h1 : ¬ data.length > s.size / 4)
    (h2 : UltraFastLog.wouldOverlap
        { s with writePos := (s.writePos + data.length) % USIZE }
        (s.writePos &&& s.mask) data.length s.readPos = false) :
    (s.append data).1 = .ok (s.writePos &&& s.mask) := by
  unfold UltraFastLog.append
  dsimp only
  rw [if_neg h1, if_neg (by simp [h2])]

/-- Forward evaluation of a successful batch append (final state). -/
theorem batchAppend_ok_state (s : UltraFastLog) (items : List (List Nat))
    (h1 : ¬ (items.map List.length).sum > s.size / 2)
    (h2 : UltraFastLog.wouldOverlap
        { s with writePos := (s.writePos + (items.map List.length).sum) % USIZE }
        (s.writePos &&& s.mask) ((items.map List.length).sum) s.readPos = false) :
    (s.batchAppend items).2 =
      { s with writePos := (s.writePos + (items.map List.length).sum) % USIZE,
               mem := (batchWriteItems s.mem s.mask s.writePos items).1,
               writesCount := (s.writesCount + items.length) % USIZE,
               bytesWritten := (s.bytesWritten + (items.map List.length).sum) % USIZE } := by
  unfold UltraFastLog.batchAppend
  dsimp only
  rw [if_neg h1, if_neg (by simp [h2])]

/-- Forward evaluation of a buffer-full batch append: the whole reservation
has moved W, nothing else changed. -/
theorem batchAppend_full_state (s : UltraFastLog) (items : List (List Nat))
    (h1 : ¬ (items.map List.length).sum > s.size / 2)
    (h2 : UltraFastLog.wouldOverlap
        { s with writePos := (s.writePos + (items.map List.length).sum) % USIZE }
        (s.writePos &&& s.mask) ((items.map List.length).sum) s.readPos = true) :
    s.batchAppend items =
      (.error .bufferFull,
        { s with writePos := (s.writePos + (items.map List.length).sum) % USIZE }) := by
  unfold UltraFastLog.batchAppend
  dsimp only
  rw [if_neg h1, if_pos h2]

/-- C2 (amended): the append/read_at round-trip holds exactly when the
returned physical position plus the record length stays inside the region;
a reservation that straddles the wrap boundary is written contiguously past
the region end instead, and read_at then rejects the read. -/
theorem C2_roundtrip_when_not_straddling (s : UltraFastLog) (data : List Nat) (pos : Nat)
    (hok : (s.append data).1 = .ok pos)
    (hfit : pos + data.length ≤ s.size) :
    (s.append data).2.readAt pos data.length = .ok data := by
  obtain ⟨hpos, hstate⟩ := append_ok_state s data pos hok
  rw [hstate]
  unfold UltraFastLog.readAt
  dsimp only
  rw [if_neg (by omega)]
  subst hpos
  have hmem : ∀ i ∈ List.range data.length,
      writeBytes s.mem (s.writePos &&& s.mask) data ((s.writePos &&& s.mask) + i)
        = data.getD i 0 := by
    intro i hi
    rw [List.mem_range] at hi
    unfold writeBytes
    rw [if_pos ⟨Nat.le_add_right _ _, by omega⟩, Nat.add_sub_cancel_left]
  rw [List.map_congr_left hmem, map_range_getD]

/-- C2 amended-claim witness: on a fresh log whose reader was advanced by 8,
the first append lands at position 0 and reads back byte-for-byte. -/
theorem C2_roundtrip_when_not_straddling_witness :
    (c2wit.append wData).2.readAt 0 wData.length = .ok wData :=
  C2_roundtrip_when_not_straddling c2wit wData 0 (by decide) (by decide)

theorem c2dataA_length : c2dataA.length = 262144 := by
  unfold c2dataA
  exact List.length_replicate _ _

theorem c2dataB_length : c2dataB.length = 262142 := by
  unfold c2dataB
  exact List.length_replicate _ _

theorem c2sumAB : (([c2dataA, c2dataB]).map List.length).sum = 524286 := by
  rw [List.map_cons, List.map_cons, List.map_nil, List.sum_cons, List.sum_cons, List.sum_nil,
    c2dataA_length, c2dataB_length]
  rfl

theorem c2sumAA : (([c2dataA, c2dataA]).map List.length).sum = 524288 := by
  rw [List.map_cons, List.map_cons, List.map_nil, List.sum_cons, List.sum_cons, List.sum_nil,
    c2dataA_length]
  rfl

theorem c2log2_run : (c2log1.batchAppend [c2dataA, c2dataB]).2 = c2log2 := by
  have h1 : ¬ (([c2dataA, c2dataB]).map List.length).sum > c2log1.size / 2 := by
    rw [c2sumAB]; decide
  have h2 : UltraFastLog.wouldOverlap
      { c2log1 with
        writePos := (c2log1.writePos + (([c2dataA, c2dataB]).map List.length).sum) % USIZE }
      (c2log1.writePos &&& c2log1.mask) ((([c2dataA, c2dataB]).map List.length).sum)
      c2log1.readPos = false := by
    rw [c2sumAB]; decide
  have e := batchAppend_ok_state c2log1 [c2dataA, c2dataB] h1 h2
  rw [c2sumAB] at e
  exact e

theorem c2log3_run : c2log2.batchAppend [c2dataA, c2dataA] = (.error .bufferFull, c2log3) := by
  have h1 : ¬ (([c2dataA, c2dataA]).map List.length).sum > c2log2.size / 2 := by
    rw [c2sumAA]; decide
  have h2 : UltraFastLog.wouldOverlap
      { c2log2 with
        writePos := (c2log2.writePos + (([c2dataA, c2dataA]).map List.length).sum) % USIZE }
      (c2log2.writePos &&& c2log2.mask) ((([c2dataA, c2dataA]).map List.length).sum)
      c2log2.readPos = true := by
    rw [c2sumAA]; decide
  have e := batchAppend_full_state c2log2 [c2dataA, c2dataA] h1 h2
  rw [c2sumAA] at e
  exact e

/-- C2 counterexample: a reachable history (reader advanced to 524288, one
successful batch, one failed batch that still moved W to 1048574) after
which an append of 262144 bytes succeeds at position 1048574 — the
reservation straddles the 1 MiB wrap boundary — and read_at at the returned
position rejects the read instead of returning the data. -/
theorem C2_wrap_straddling_append_breaks_roundtrip :
    (c2log1.batchAppend [c2dataA, c2dataB]).2 = c2log2 ∧
    c2log2.batchAppend [c2dataA, c2dataA] = (.error .bufferFull, c2log3) ∧
    (c2log3.append c2dataA).1 = .ok 1048574 ∧
    c2dataA.length = 262144 ∧
    (c2log3.append c2dataA).2.readAt 1048574 c2dataA.length = .error .readBeyondBufferSize ∧
    (c2log3.append c2dataA).2.readAt 1048574 c2dataA.length ≠ .ok c2dataA := by
  have h1 : ¬ c2dataA.length > c2log3.size / 4 := by
    rw [c2dataA_length]; decide
  have h2 : UltraFastLog.wouldOverlap
      { c2log3 with writePos := (c2log3.writePos + c2dataA.length) % USIZE }
      (c2log3.writePos &&& c2log3.mask) c2dataA.length c2log3.readPos = false := by
    rw [c2dataA_length]; decide
  have hok : (c2log3.append c2dataA).1 = .ok (c2log3.writePos &&& c2log3.mask) :=
    append_ok_eval c2log3 c2dataA h1 h2
  have hpos : c2log3.writePos &&& c2log3.mask = 1048574 := by decide
  obtain ⟨-, hstate⟩ := append_ok_state c2log3 c2dataA _ hok
  have herr : (c2log3.append c2dataA).2.readAt 1048574 c2dataA.length
      = .error .readBeyondBufferSize := by
    rw [hstate]
    unfold UltraFastLog.readAt
    dsimp only
    rw [if_pos (by rw [c2dataA_length]; decide)]
  refine ⟨c2log2_run, c2log3_run, by rw [hok, hpos], c2dataA_length, herr, ?_⟩
  rw [herr]
  simp

/-- C4 counterexample: pushing into a full price array does not return any
error value — the call aborts through an explicit Rust panic (modelled as
none; the push signature has no error channel at all), and likewise the
first add on a period-0 moving average panics while its construction
succeeded. -/
theorem C4_full_push_panics :
    ((CacheOptimizedPriceArray.new 1).push mdEx).bind (fun a => a.push mdEx) = none ∧
    (MovingAverage.new 0).add 1 = none := by
  exact ⟨by decide, by decide⟩

/-- C4 (amended): the misuse cases named by the claim abort through Rust
panics (modelled as none) instead of returning error values: push on a full
array, a slice or price update whose range exceeds the length, and any add
on a moving average whose period is 0 (construction with period 0 itself
succeeds and returns the struct). -/
theorem C4_misuse_panics (a : CacheOptimizedPriceArray) (d : CacheOptimizedMarketData)
    (start len : Nat) (ps : List ℚ) (m : MovingAverage) (x : ℚ)
    (hfull : a.capacity ≤ a.length)
    (hs : a.length < start + len)
    (hu : a.length < start + ps.length)
    (hm : m.period = 0) :
    a.push d = none ∧
    a.getPricesSlice start len = none ∧
    a.updatePricesVectorized start ps = none ∧
    m.add x = none := by
  refine ⟨?_, ?_, ?_, ?_⟩
  · unfold CacheOptimizedPriceArray.push
    rw [if_pos hfull]
  · unfold CacheOptimizedPriceArray.getPricesSlice
    rw [if_pos hs]
  · unfold CacheOptimizedPriceArray.updatePricesVectorized
    rw [if_pos hu]
  · unfold MovingAverage.add
    cases hbuf : m.buffer[m.index]? with
    | none => rfl
    | some v =>
      dsimp only
      rw [if_pos hm]

/-- C4 amended-claim witness: a zero-capacity array and a period-0 moving
average. -/
theorem C4_misuse_panics_witness :
    (CacheOptimizedPriceArray.new 0).push mdEx = none ∧
    (CacheOptimizedPriceArray.new 0).getPricesSlice 0 1 = none ∧
    (CacheOptimizedPriceArray.new 0).updatePricesVectorized 0 [5] = none ∧
    (MovingAverage.new 0).add 1 = none :=
  C4_misuse_panics (CacheOptimizedPriceArray.new 0) mdEx 0 1 [5] (MovingAverage.new 0) 1
    (by decide) (by decide) (by decide) (by decide)

/-- C8: on any detected 2-node topology, the scheduler construction maps
market_data_ingestion and order_processing to node 0 and risk_calculation
and portfolio_calculation to node 1, and get_node_for_service reports
exactly these assignments. -/
theorem C8_two_node_service_placement (topo : NumaTopology) (h : topo.totalNodes = 2) :
    (NumaScheduler.create topo).getNodeForService svcMarketDataIngestion = 0 ∧
    (NumaScheduler.create topo).getNodeForService svcOrderProcessing = 0 ∧
    (NumaScheduler.create topo).getNodeForService svcRiskCalculation = 1 ∧
    (NumaScheduler.create topo).getNodeForService svcPortfolioCalculation = 1 := by
  unfold NumaScheduler.create NumaScheduler.getNodeForService setupTradingAssignments
  dsimp only
  rw [h]
  exact ⟨rfl, rfl, rfl, rfl⟩

/-- C8 witness: a concrete dual-socket topology. -/
theorem C8_two_node_service_placement_witness :
    (NumaScheduler.create topo2).getNodeForService svcMarketDataIngestion = 0 ∧
    (NumaScheduler.create topo2).getNodeForService svcOrderProcessing = 0 ∧
    (NumaScheduler.create topo2).getNodeForService svcRiskCalculation = 1 ∧
    (NumaScheduler.create topo2).getNodeForService svcPortfolioCalculation = 1 :=
  C8_two_node_service_placement topo2 rfl

/-- Elimination for a failed remove_quantity: only sequence and
last_update_time have changed. -/
theorem removeQuantity_error_state (b : OrderBook) (side : Side) (price quantity : ℚ)
    (now : Nat) (e : BookErr)
    (hfail : (b.removeQuantity side price quantity now).1 = .error e) :
    (b.removeQuantity side price quantity now).2 =
      { b with sequence := b.sequence + 1, lastUpdateTime := now } := by
  unfold OrderBook.removeQuantity at hfail ⊢
  cases side
  case Buy =>
    dsimp only at hfail ⊢
    cases hfind : Ladder.find? b.bids price with
    | none => rfl
    | some lv =>
      rw [hfind] at hfail
      dsimp only at hfail ⊢
      split at hfail
      next hc => rw [if_pos hc]
      next hc =>
        rw [if_neg hc]
        split at hfail <;> exact absurd hfail (by simp)
  case Sell =>
    dsimp only at hfail ⊢
    cases hfind : Ladder.find? b.asks price with
    | none => rfl
    | some lv =>
      rw [hfind] at hfail
      dsimp only at hfail ⊢
      split at hfail
      next hc => rw [if_pos hc]
      next hc =>
        rw [if_neg hc]
        split at hfail <;> exact absurd hfail (by simp)

theorem addOrder_sequence (b : OrderBook) (o : Order) (now : Nat) :
    (b.addOrder o now).sequence = b.sequence + 1 := by
  obtain ⟨oid, side, price, quantity, ts⟩ := o
  unfold OrderBook.addOrder
  cases side <;> rfl

/-- C10: every add_order, clear, or remove_quantity call — including removes
that fail with not-found or insufficient-size — bumps sequence by one and
stamps last_update_time, because both are updated before validation; a
failed remove changes nothing else (ladders and volume totals keep their
values). -/
theorem C10_sequence_bumps_before_validation (b : OrderBook) (o : Order) (side : Side)
    (price quantity : ℚ) (now : Nat) (e : BookErr)
    (hfail : (b.removeQuantity side price quantity now).1 = .error e) :
    (b.addOrder o now).sequence = b.sequence + 1 ∧
    (b.clear now).sequence = b.sequence + 1 ∧
    (b.removeQuantity side price quantity now).2.sequence = b.sequence + 1 ∧
    (b.removeQuantity side price quantity now).2.lastUpdateTime = now ∧
    (b.removeQuantity side price quantity now).2.bids = b.bids ∧
    (b.removeQuantity side price quantity now).2.asks = b.asks ∧
    (b.removeQuantity side price quantity now).2.totalBidVolume = b.totalBidVolume ∧
    (b.removeQuantity side price quantity now).2.totalAskVolume = b.totalAskVolume := by
  rw [removeQuantity_error_state b side price quantity now e hfail]
  exact ⟨addOrder_sequence b o now, rfl, rfl, rfl, rfl, rfl, rfl, rfl⟩

/-- C10 witness: removing from a fresh book fails with not-found and the
conclusions evaluate there. -/
theorem C10_sequence_bumps_before_validation_witness :
    ((OrderBook.new symAAPL 0).addOrder ordEx 7).sequence = (OrderBook.new symAAPL 0).sequence + 1 ∧
    ((OrderBook.new symAAPL 0).clear 7).sequence = (OrderBook.new symAAPL 0).sequence + 1 ∧
    ((OrderBook.new symAAPL 0).removeQuantity .Buy 100 5 7).2.sequence
      = (OrderBook.new symAAPL 0).sequence + 1 ∧
    ((OrderBook.new symAAPL 0).removeQuantity .Buy 100 5 7).2.lastUpdateTime = 7 ∧
    ((OrderBook.new symAAPL 0).removeQuantity .Buy 100 5 7).2.bids
      = (OrderBook.new symAAPL 0).bids ∧
    ((OrderBook.new symAAPL 0).removeQuantity .Buy 100 5 7).2.asks
      = (OrderBook.new symAAPL 0).asks ∧
    ((OrderBook.new symAAPL 0).removeQuantity .Buy 100 5 7).2.totalBidVolume
      = (OrderBook.new symAAPL 0).totalBidVolume ∧
    ((OrderBook.new symAAPL 0).removeQuantity .Buy 100 5 7).2.totalAskVolume
      = (OrderBook.new symAAPL 0).totalAskVolume :=
  C10_sequence_bumps_before_validation (OrderBook.new symAAPL 0) ordEx .Buy 100 5 7
    .notFound (by rfl)

/-- C6: VWAP identity and null cases: a side holding exactly one level at
price p with positive size yields vwap(side, 1) = p; a side whose visited
top-depth levels fold to total size 0 — in particular an empty side —
yields null. -/
theorem C6_vwap_identity (b1 b2 b3 b4 b5 b6 : OrderBook) (p q : ℚ) (lv lw : PriceLevel)
    (d3 d4 d5 d6 : Nat)
    (h1 : b1.bids = [(p, lv)]) (h2 : 0 < lv.size)
    (h3 : b2.asks = [(q, lw)]) (h4 : 0 < lw.size)
    (h5 : (b3.vwapFold .Buy d3).1 = 0)
    (h6 : (b4.vwapFold .Sell d4).1 = 0)
    (h7 : b5.bids = []) (h8 : b6.asks = []) :
    b1.calculateVwap .Buy 1 = some p ∧
    b2.calculateVwap .Sell 1 = some q ∧
    b3.calculateVwap .Buy d3 = none ∧
    b4.calculateVwap .Sell d4 = none ∧
    b5.calculateVwap .Buy d5 = none ∧
    b6.calculateVwap .Sell d6 = none := by
  refine ⟨?_, ?_, ?_, ?_, ?_, ?_⟩
  · unfold OrderBook.calculateVwap OrderBook.vwapFold OrderBook.vwapLevels
    rw [h1]
    have hne : lv.size ≠ 0 := ne_of_gt h2
    show (if 0 < (0:ℚ) + lv.size then some (((0:ℚ) + p * lv.size) / ((0:ℚ) + lv.size)) else none)
      = some p
    rw [zero_add, zero_add, if_pos h2, mul_div_cancel_right₀ p hne]
  · unfold OrderBook.calculateVwap OrderBook.vwapFold OrderBook.vwapLevels
    rw [h3]
    have hne : lw.size ≠ 0 := ne_of_gt h4
    show (if 0 < (0:ℚ) + lw.size then some (((0:ℚ) + q * lw.size) / ((0:ℚ) + lw.size)) else none)
      = some q
    rw [zero_add, zero_add, if_pos h4, mul_div_cancel_right₀ q hne]
  · unfold OrderBook.calculateVwap
    dsimp only
    rw [h5]
    simp
  · unfold OrderBook.calculateVwap
    dsimp only
    rw [h6]
    simp
  · unfold OrderBook.calculateVwap OrderBook.vwapFold OrderBook.vwapLevels
    rw [h7]
    simp
  · unfold OrderBook.calculateVwap OrderBook.vwapFold OrderBook.vwapLevels
    rw [h8]
    simp

/-- C6 witness: a one-bid book, a one-ask book, and empty books. -/
theorem C6_vwap_identity_witness :
    bookA.calculateVwap .Buy 1 = some 150 ∧
    bookB.calculateVwap .Sell 1 = some (3001/20) ∧
    (OrderBook.new symAAPL 0).calculateVwap .Buy 3 = none ∧
    (OrderBook.new symAAPL 0).calculateVwap .Sell 3 = none ∧
    (OrderBook.new symAAPL 0).calculateVwap .Buy 2 = none ∧
    (OrderBook.new symAAPL 0).calculateVwap .Sell 2 = none :=
  C6_vwap_identity bookA bookB (OrderBook.new symAAPL 0) (OrderBook.new symAAPL 0)
    (OrderBook.new symAAPL 0) (OrderBook.new symAAPL 0) 150 (3001/20) lvBid lvAsk
    3 3 2 2
    (by rfl) (by norm_num [lvBid]) (by rfl) (by norm_num [lvAsk])
    (by rfl) (by rfl) (by rfl) (by rfl)

theorem keys_cons (k : ℚ) (v : PriceLevel) (t : Ladder) :
    Ladder.keys ((k, v) :: t) = k :: Ladder.keys t := rfl

theorem keys_updOrIns (f : PriceLevel → PriceLevel) (dflt : PriceLevel) (l : Ladder) (k : ℚ) :
    Ladder.keys (Ladder.updOrIns f dflt l k) = insertKey k (Ladder.keys l) := by
  induction l with
  | nil => rfl
  | cons hd t ih =>
    obtain ⟨k', v⟩ := hd
    unfold Ladder.updOrIns
    rw [keys_cons]
    unfold insertKey
    by_cases h1 : k < k'
    · rw [if_pos h1, if_pos h1]
      rfl
    · rw [if_neg h1, if_neg h1]
      by_cases h2 : k = k'
      · rw [if_pos h2, if_pos h2]
        rfl
      · rw [if_neg h2, if_neg h2]
        show k' :: Ladder.keys (Ladder.updOrIns f dflt t k) = k' :: insertKey k (Ladder.keys t)
        rw [ih]

theorem keys_update (f : PriceLevel → PriceLevel) (l : Ladder) (k : ℚ) :
    Ladder.keys (Ladder.update f l k) = Ladder.keys l := by
  induction l with
  | nil => rfl
  | cons hd t ih =>
    obtain ⟨k', v⟩ := hd
    unfold Ladder.update
    by_cases h : k = k'
    · rw [if_pos h, keys_cons, keys_cons]
    · rw [if_neg h, keys_cons, keys_cons, ih]

theorem keys_erase (l : Ladder) (k : ℚ) :
    Ladder.keys (Ladder.erase l k) = eraseKey k (Ladder.keys l) := by
  induction l with
  | nil => rfl
  | cons hd t ih =>
    obtain ⟨k', v⟩ := hd
    unfold Ladder.erase
    rw [keys_cons]
    unfold eraseKey
    by_cases h : k = k'
    · rw [if_pos h, if_pos h]
    · rw [if_neg h, if_neg h, keys_cons, ih]

theorem mem_insertKey {x k : ℚ} {ks : List ℚ} :
    x ∈ insertKey k ks ↔ x = k ∨ x ∈ ks := by
  induction ks with
  | nil => simp [insertKey]
  | cons a t ih =>
    unfold insertKey
    by_cases h1 : k < a
    · rw [if_pos h1]
      simp [List.mem_cons]
    · rw [if_neg h1]
      by_cases h2 : k = a
      · rw [if_pos h2]
        subst h2
        simp [List.mem_cons]
      · rw [if_neg h2]
        simp [List.mem_cons, ih]
        tauto

theorem sorted_le_getLast? {ks : List ℚ} : List.Sorted (· < ·) ks → ∀ {x m : ℚ},
    x ∈ ks → ks.getLast? = some m → x ≤ m := by
  induction ks with
  | nil => intro _ x m hx; cases hx
  | cons a t ih =>
    intro hs x m hx hm
    rw [List.sorted_cons] at hs
    cases t with
    | nil =>
      rw [List.mem_singleton] at hx
      cases hm
      exact le_of_eq hx
    | cons b t' =>
      rw [List.getLast?_cons_cons] at hm
      rcases List.mem_cons.mp hx with rfl | hxt
      · exact le_of_lt (hs.1 m (List.mem_of_mem_getLast? hm))
      · exact ih hs.2 hxt hm

theorem insertKey_sorted {ks : List ℚ} (k : ℚ) : List.Sorted (· < ·) ks →
    List.Sorted (· < ·) (insertKey k ks) := by
  induction ks with
  | nil => intro _; simp [insertKey]
  | cons a t ih =>
    intro hs
    rw [List.sorted_cons] at hs
    unfold insertKey
    by_cases h1 : k < a
    · rw [if_pos h1, List.sorted_cons]
      refine ⟨?_, List.sorted_cons.mpr hs⟩
      intro b hb
      rcases List.mem_cons.mp hb with rfl | hbt
      · exact h1
      · exact lt_trans h1 (hs.1 b hbt)
    · rw [if_neg h1]
      by_cases h2 : k = a
      · rw [if_pos h2, List.sorted_cons]
        exact hs
      · rw [if_neg h2, List.sorted_cons]
        refine ⟨?_, ih hs.2⟩
        intro b hb
        rcases mem_insertKey.mp hb with rfl | hbt
        · exact lt_of_le_of_ne (not_lt.mp h1) (Ne.symm h2)
        · exact hs.1 b hbt

theorem cons_getLast?_some (a : ℚ) (t : List ℚ) : ∃ m, (a :: t).getLast? = some m := by
  induction t generalizing a with
  | nil => exact ⟨a, rfl⟩
  | cons b t' ih =>
    rw [List.getLast?_cons_cons]
    exact ih b

theorem insertKey_getLast? (k : ℚ) : ∀ {ks : List ℚ}, List.Sorted (· < ·) ks →
    (insertKey k ks).getLast? = some (optMax ks.getLast? k) := by
  intro ks
  induction ks with
  | nil => intro _; rfl
  | cons a t ih =>
    intro hs
    have hs' := (List.sorted_cons.mp hs).2
    unfold insertKey
    by_cases h1 : k < a
    · rw [if_pos h1, List.getLast?_cons_cons]
      obtain ⟨m, hm⟩ := cons_getLast?_some a t
      rw [hm]
      have ham : a ≤ m := sorted_le_getLast? hs (List.mem_cons_self a t) hm
      rw [show optMax (some m) k = m from max_eq_left (le_trans (le_of_lt h1) ham)]
    · rw [if_neg h1]
      by_cases h2 : k = a
      · rw [if_pos h2]
        obtain ⟨m, hm⟩ := cons_getLast?_some a t
        rw [hm]
        have ham : a ≤ m := sorted_le_getLast? hs (List.mem_cons_self a t) hm
        rw [show optMax (some m) k = m from max_eq_left (h2 ▸ ham)]
      · rw [if_neg h2]
        have hak : a < k := lt_of_le_of_ne (not_lt.mp h1) (Ne.symm h2)
        cases t with
        | nil =>
          show ((a :: insertKey k []).getLast?) = some (optMax ([a] : List ℚ).getLast? k)
          rw [show insertKey k [] = [k] from rfl, List.getLast?_cons_cons]
          show some k = some (optMax (some a) k)
          rw [show optMax (some a) k = k from max_eq_right (le_of_lt hak)]
        | cons b t' =>
          obtain ⟨c, t'', hit⟩ : ∃ c t'', insertKey k (b :: t') = c :: t'' := by
            unfold insertKey
            by_cases hx : k < b
            · rw [if_pos hx]
              exact ⟨k, _, rfl⟩
            · rw [if_neg hx]
              by_cases hy : k = b
              · rw [if_pos hy]
                exact ⟨b, _, rfl⟩
              · rw [if_neg hy]
                exact ⟨b, _, rfl⟩
          rw [hit]
          rw [show ((a : ℚ) :: c :: t'').getLast? = (c :: t'').getLast? from
            List.getLast?_cons_cons]
          rw [← hit, ih hs']
          rw [show ((a : ℚ) :: b :: t').getLast? = (b :: t').getLast? from
            List.getLast?_cons_cons]

theorem insertKey_head? (k : ℚ) (ks : List ℚ) :
    (insertKey k ks).head? = some (optMin ks.head? k) := by
  cases ks with
  | nil => rfl
  | cons a t =>
    unfold insertKey
    by_cases h1 : k < a
    · rw [if_pos h1]
      show some k = some (optMin (some a) k)
      rw [show optMin (some a) k = k from min_eq_right (le_of_lt h1)]
    · rw [if_neg h1]
      by_cases h2 : k = a
      · rw [if_pos h2]
        show some a = some (optMin (some a) k)
        rw [show optMin (some a) k = a from min_eq_left (le_of_eq h2.symm)]
      · rw [if_neg h2]
        show some a = some (optMin (some a) k)
        rw [show optMin (some a) k = a from min_eq_left (not_lt.mp h1)]

theorem eraseKey_sublist (k : ℚ) (ks : List ℚ) : (eraseKey k ks).Sublist ks := by
  induction ks with
  | nil => exact List.Sublist.refl _
  | cons a t ih =>
    unfold eraseKey
    by_cases h : k = a
    · rw [if_pos h]
      exact List.sublist_cons_self a t
    · rw [if_neg h]
      exact List.Sublist.cons₂ a ih

theorem eraseKey_getLast? (k : ℚ) : ∀ {ks : List ℚ}, List.Sorted (· < ·) ks → k ∈ ks →
    ks.getLast? ≠ some k → (eraseKey k ks).getLast? = ks.getLast? := by
  intro ks
  induction ks with
  | nil => intro _ hk _; cases hk
  | cons a t ih =>
    intro hs hk hlast
    unfold eraseKey
    by_cases h : k = a
    · rw [if_pos h]
      cases t with
      | nil => exact absurd (show (([a] : List ℚ)).getLast? = some k by rw [h]; rfl) hlast
      | cons b t' =>
        rw [List.getLast?_cons_cons]
    · rw [if_neg h]
      have hkt : k ∈ t := by
        rcases List.mem_cons.mp hk with rfl | hkt
        · exact absurd rfl h
        · exact hkt
      cases t with
      | nil => cases hkt
      | cons b t' =>
        rw [List.getLast?_cons_cons] at hlast
        have ih' := ih (List.sorted_cons.mp hs).2 hkt hlast
        obtain ⟨c, t'', he⟩ : ∃ c t'', eraseKey k (b :: t') = c :: t'' := by
          unfold eraseKey
          by_cases hkb : k = b
          · rw [if_pos hkb]
            cases t' with
            | nil => exact absurd (show (([b] : List ℚ)).getLast? = some k by rw [hkb]; rfl) hlast
            | cons d t3 => exact ⟨d, t3, rfl⟩
          · rw [if_neg hkb]
            exact ⟨b, _, rfl⟩
        rw [he]
        rw [show ((a : ℚ) :: c :: t'').getLast? = (c :: t'').getLast? from
          List.getLast?_cons_cons]
        rw [← he, ih']
        rw [show ((a : ℚ) :: b :: t').getLast? = (b :: t').getLast? from
          List.getLast?_cons_cons]

theorem eraseKey_head? (k : ℚ) (ks : List ℚ) (hk : k ∈ ks) (hh : ks.head? ≠ some k) :
    (eraseKey k ks).head? = ks.head? := by
  cases ks with
  | nil => cases hk
  | cons a t =>
    unfold eraseKey
    by_cases h : k = a
    · exact absurd (show ((a :: t).head? = some k) by rw [h]; rfl) hh
    · rw [if_neg h]
      rfl

theorem find?_mem_keys : ∀ (l : Ladder) (k : ℚ) (v : PriceLevel),
    Ladder.find? l k = some v → k ∈ Ladder.keys l := by
  intro l
  induction l with
  | nil => intro k v h; cases h
  | cons hd t ih =>
    obtain ⟨k', v'⟩ := hd
    intro k v h
    unfold Ladder.find? at h
    rw [keys_cons]
    by_cases hk : k = k'
    · subst hk
      exact List.mem_cons_self _ _
    · rw [if_neg hk] at h
      exact List.mem_cons_of_mem _ (ih k v h)

theorem bookInv_new (sym : String) (t0 : Nat) : BookInv (OrderBook.new sym t0) :=
  ⟨List.sorted_nil, List.sorted_nil, rfl, rfl⟩

theorem bookInv_addOrder (b : OrderBook) (o : Order) (now : Nat) (h : BookInv b) :
    BookInv (b.addOrder o now) := by
  obtain ⟨hsb, hsa, hbb, hba⟩ := h
  obtain ⟨oid, side, price, quantity, ts⟩ := o
  cases side
  case Buy =>
    unfold OrderBook.addOrder
    dsimp only
    refine ⟨?_, hsa, ?_, hba⟩
    · unfold Ladder.SortedKeys
      rw [keys_updOrIns]
      exact insertKey_sorted _ hsb
    · unfold Ladder.maxKey
      rw [keys_updOrIns, insertKey_getLast? _ hsb]
      have hbb' : b.bestBid = (Ladder.keys b.bids).getLast? := hbb
      rw [hbb']
      cases hmk : (Ladder.keys b.bids).getLast? with
      | none => rfl
      | some m =>
        show (if m < price then some price else some m) = some (optMax (some m) price)
        by_cases hc : m < price
        · rw [if_pos hc, show optMax (some m) price = price from max_eq_right (le_of_lt hc)]
        · rw [if_neg hc, show optMax (some m) price = m from max_eq_left (not_lt.mp hc)]
  case Sell =>
    unfold OrderBook.addOrder
    dsimp only
    refine ⟨hsb, ?_, hbb, ?_⟩
    · unfold Ladder.SortedKeys
      rw [keys_updOrIns]
      exact insertKey_sorted _ hsa
    · unfold Ladder.minKey
      rw [keys_updOrIns, insertKey_head?]
      have hba' : b.bestAsk = (Ladder.keys b.asks).head? := hba
      rw [hba']
      cases hmk : (Ladder.keys b.asks).head? with
      | none => rfl
      | some m =>
        show (if price < m then some price else some m) = some (optMin (some m) price)
        by_cases hc : price < m
        · rw [if_pos hc, show optMin (some m) price = price from min_eq_right (le_of_lt hc)]
        · rw [if_neg hc, show optMin (some m) price = m from min_eq_left (not_lt.mp hc)]

theorem bookInv_removeQuantity (b : OrderBook) (side : Side) (price quantity : ℚ)
    (now : Nat) (h : BookInv b) :
    BookInv (b.removeQuantity side price quantity now).2 := by
  obtain ⟨hsb, hsa, hbb, hba⟩ := h
  cases side
  case Buy =>
    unfold OrderBook.removeQuantity
    dsimp only
    cases hfind : Ladder.find? b.bids price with
    | none => exact ⟨hsb, hsa, hbb, hba⟩
    | some lv =>
      dsimp only
      split
      next => exact ⟨hsb, hsa, hbb, hba⟩
      next hge =>
        have hkeys1 : Ladder.keys
            (Ladder.update (fun l => { l with size := l.size - quantity }) b.bids price)
            = Ladder.keys b.bids := keys_update _ _ _
        split
        next hz =>
          refine ⟨?_, hsa, ?_, hba⟩
          · unfold Ladder.SortedKeys
            rw [keys_erase, hkeys1]
            exact List.Pairwise.sublist (eraseKey_sublist price (Ladder.keys b.bids)) hsb
          · by_cases hcond : some price = b.bestBid
            · rw [if_pos hcond]
            · rw [if_neg hcond]
              unfold Ladder.maxKey
              rw [keys_erase, hkeys1]
              have hne : (Ladder.keys b.bids).getLast? ≠ some price := fun hcontra =>
                hcond ((hbb.trans hcontra).symm)
              rw [eraseKey_getLast? price hsb (find?_mem_keys _ _ _ hfind) hne]
              exact hbb
        next hz =>
          refine ⟨?_, hsa, ?_, hba⟩
          · unfold Ladder.SortedKeys
            rw [keys_update]
            exact hsb
          · unfold Ladder.maxKey
            rw [keys_update]
            exact hbb
  case Sell =>
    unfold OrderBook.removeQuantity
    dsimp only
    cases hfind : Ladder.find? b.asks price with
    | none => exact ⟨hsb, hsa, hbb, hba⟩
    | some lv =>
      dsimp only
      split
      next => exact ⟨hsb, hsa, hbb, hba⟩
      next hge =>
        have hkeys1 : Ladder.keys
            (Ladder.update (fun l => { l with size := l.size - quantity }) b.asks price)
            = Ladder.keys b.asks := keys_update _ _ _
        split
        next hz =>
          refine ⟨hsb, ?_, hbb, ?_⟩
          · unfold Ladder.SortedKeys
            rw [keys_erase, hkeys1]
            exact List.Pairwise.sublist (eraseKey_sublist price (Ladder.keys b.asks)) hsa
          · by_cases hcond : some price = b.bestAsk
            · rw [if_pos hcond]
            · rw [if_neg hcond]
              unfold Ladder.minKey
              rw [keys_erase, hkeys1]
              have hne : (Ladder.keys b.asks).head? ≠ some price := fun hcontra =>
                hcond ((hba.trans hcontra).symm)
              rw [eraseKey_head? price _ (find?_mem_keys _ _ _ hfind) hne]
              exact hba
        next hz =>
          refine ⟨hsb, ?_, hbb, ?_⟩
          · unfold Ladder.SortedKeys
            rw [keys_update]
            exact hsa
          · unfold Ladder.minKey
            rw [keys_update]
            exact hba

theorem bookInv_applyBookOp (b : OrderBook) (op : BookOp) (h : BookInv b) :
    BookInv (applyBookOp b op) := by
  cases op with
  | add o now => exact bookInv_addOrder b o now h
  | remove side price quantity now => exact bookInv_removeQuantity b side price quantity now h

theorem bookInv_runBook (ops : List BookOp) (b : OrderBook) (h : BookInv b) :
    BookInv (runBook b ops) := by
  induction ops generalizing b with
  | nil => exact h
  | cons op t ih => exact ih (applyBookOp b op) (bookInv_applyBookOp b op h)

/-- C3: after any sequence of add_order / remove_quantity calls with valid
inputs on a fresh book, the cached best bid equals the maximum bids key,
the cached best ask equals the minimum asks key (none when the side is
empty), and get_best_bid_offer reports exactly these prices together with
the size stored at the corresponding level. -/
theorem C3_best_quote_invariant (ops : List BookOp)
    (hv : ∀ op ∈ ops, validBookOp op = true) (sym : String) (t0 : Nat) :
    bestQuoteAligned (runBook (OrderBook.new sym t0) ops) := by
  obtain ⟨hsb, hsa, hbb, hba⟩ :=
    bookInv_runBook ops (OrderBook.new sym t0) (bookInv_new sym t0)
  unfold bestQuoteAligned
  refine ⟨hbb, hba, hbb, hba, ?_, ?_⟩
  · show ((runBook (OrderBook.new sym t0) ops).bestBid.bind
        (fun p => Ladder.find? (runBook (OrderBook.new sym t0) ops).bids p)).map
        (fun l => l.size) = _
    rw [hbb, Option.map_bind]
    rfl
  · show ((runBook (OrderBook.new sym t0) ops).bestAsk.bind
        (fun p => Ladder.find? (runBook (OrderBook.new sym t0) ops).asks p)).map
        (fun l => l.size) = _
    rw [hba, Option.map_bind]
    rfl

/-- C3 witness: a concrete five-operation history (three adds, a best-bid
removal that erases the level, an ask removal that leaves size positive). -/
theorem C3_best_quote_invariant_witness :
    bestQuoteAligned (runBook (OrderBook.new symAAPL 0) opsC3) :=
  C3_best_quote_invariant opsC3
    (by
      intro op hop
      fin_cases hop <;> simp [validBookOp, opsC3])
    symAAPL 0

theorem succ_mod_eq (n P : Nat) (hP : 0 < P) :
    (n + 1) % P = if n % P + 1 = P then 0 else n % P + 1 := by
  have hdm := Nat.mod_add_div n P
  have h : n + 1 = n % P + 1 + P * (n / P) := by omega
  rw [h, Nat.add_mul_mod_self_left]
  by_cases hc : n % P + 1 = P
  · rw [if_pos hc, hc, Nat.mod_self]
  · rw [if_neg hc]
    exact Nat.mod_eq_of_lt (lt_of_le_of_ne (Nat.succ_le_of_lt (Nat.mod_lt n hP)) hc)

theorem getD_replicate {α : Type} (n i : Nat) (a d : α) (h : i < n) :
    (List.replicate n a).getD i d = a := by
  rw [List.getD_eq_getElem?_getD, List.getElem?_replicate, if_pos h]
  rfl

theorem bufVal_succ_eq (P : Nat) (xs : List ℚ) (n : Nat) (hP : 0 < P) :
    bufVal P xs (n + 1) (n % P) = xs.getD n 0 := by
  have h1 : n % P ≤ n := Nat.mod_le n P
  have h2 : n % P < P := Nat.mod_lt n hP
  have h4 := succ_mod_eq n P hP
  unfold bufVal
  by_cases hc : n % P + 1 = P
  · rw [if_pos hc] at h4
    rw [if_neg (by omega), if_pos (by omega)]
    congr 2
    omega
  · rw [if_neg hc] at h4
    rw [if_pos (by omega)]
    congr 2
    omega

theorem bufVal_succ_ne (P : Nat) (xs : List ℚ) (n j : Nat) (hP : 0 < P) (hj : j < P)
    (hne : j ≠ n % P) : bufVal P xs (n + 1) j = bufVal P xs n j := by
  have h1 : n % P ≤ n := Nat.mod_le n P
  have h2 : n % P < P := Nat.mod_lt n hP
  have h4 := succ_mod_eq n P hP
  unfold bufVal
  by_cases hc : n % P + 1 = P
  · rw [if_pos hc] at h4
    rw [if_neg (by omega), if_pos (by omega), if_pos (by omega)]
    congr 2
    omega
  · rw [if_neg hc] at h4
    by_cases hjlt : j < n % P
    · rw [if_pos (by omega), if_pos hjlt]
      congr 2
      omega
    · rw [if_neg (by omega), if_neg hjlt]
      by_cases hPn : P ≤ n
      · rw [if_pos (by omega), if_pos hPn]
        congr 2
        omega
      · have hnP : n % P = n := Nat.mod_eq_of_lt (by omega)
        rw [if_neg (by omega), if_neg hPn]

theorem maModels_new (P : Nat) (xs : List ℚ) (hP : 0 < P) :
    MAModels P xs 0 (MovingAverage.new P) := by
  refine ⟨rfl, List.length_replicate _ _, ?_, ?_, ?_, ?_, ?_⟩
  · show (0 : Nat) = 0 % P
    rw [Nat.zero_mod]
  · show (0 : Nat) = min 0 P
    rw [Nat.zero_min]
  · show false = decide (P ≤ 0)
    rw [decide_eq_false (by omega : ¬ P ≤ 0)]
  · show (0 : ℚ) = ∑ t ∈ Finset.Ico (0 - min 0 P) 0, xs.getD t 0
    simp
  · intro j hj
    show (List.replicate P (0:ℚ)).getD j 0 = bufVal P xs 0 j
    rw [getD_replicate _ _ _ _ hj]
    unfold bufVal
    rw [Nat.zero_mod]
    rw [if_neg (by omega), if_neg (by omega)]

theorem maModels_step (P : Nat) (xs : List ℚ) (n : Nat) (s : MovingAverage)
    (hP : 0 < P) (hm : MAModels P xs n s) (hn : n < xs.length) :
    ∃ s', s.add (xs.getD n 0) = some (s', winAvg P xs n) ∧ MAModels P xs (n + 1) s' := by
  obtain ⟨hper, hlen, hidx, hcnt, hfil, hsum, hbuf⟩ := hm
  have hr : n % P < P := Nat.mod_lt n hP
  have hr1 : n % P ≤ n := Nat.mod_le n P
  have hidx_lt : s.index < s.buffer.length := by
    rw [hlen, hidx]
    exact hr
  have hget : s.buffer[s.index]? = some (s.buffer.getD s.index 0) := by
    rw [List.getElem?_eq_getElem hidx_lt]
    congr 1
    rw [List.getD_eq_getElem?_getD, List.getElem?_eq_getElem hidx_lt]
    rfl
  have hold : s.buffer.getD s.index 0 = bufVal P xs n (n % P) := by
    rw [hidx]
    exact hbuf _ hr
  have hper0 : ¬ s.period = 0 := by
    rw [hper]
    omega
  have hbufstep : ∀ j, j < P →
      (s.buffer.set s.index (xs.getD n 0)).getD j 0 = bufVal P xs (n + 1) j := by
    intro j hj
    by_cases hji : j = n % P
    · subst hji
      rw [← hidx, List.getD_eq_getElem?_getD, List.getElem?_set_self hidx_lt]
      rw [hidx]
      exact (bufVal_succ_eq P xs n hP).symm
    · have hne : s.index ≠ j := by
        rw [hidx]
        exact fun hcon => hji hcon.symm
      rw [List.getD_eq_getElem?_getD, List.getElem?_set_ne hne,
        ← List.getD_eq_getElem?_getD, hbuf j hj]
      exact (bufVal_succ_ne P xs n j hP hj hji).symm
  by_cases hPn : P ≤ n
  · -- filled regime: the window slides
    have hfil' : s.filled = true := by
      rw [hfil]
      exact decide_eq_true hPn
    have hminn : min n P = P := by omega
    have hmin1 : min (n + 1) P = P := by omega
    have hoY : bufVal P xs n (n % P) = xs.getD (n - P) 0 := by
      unfold bufVal
      rw [if_neg (by omega), if_pos hPn]
      congr 2
      have hq : P ≤ P * (n / P) := Nat.le_mul_of_pos_right P (Nat.div_pos hPn hP)
      have hdm := Nat.mod_add_div n P
      omega
    have hsum' : s.sum - s.buffer.getD s.index 0 + xs.getD n 0
        = ∑ t ∈ Finset.Ico (n + 1 - P) (n + 1), xs.getD t 0 := by
      rw [hold, hoY, hsum, hminn]
      rw [Finset.sum_eq_sum_Ico_succ_bot (show n - P < n by omega) (fun t => xs.getD t 0)]
      rw [Finset.sum_Ico_succ_top (show n + 1 - P ≤ n by omega) (fun t => xs.getD t 0)]
      rw [show n - P + 1 = n + 1 - P by omega]
      ring
    have hadd : s.add (xs.getD n 0) = some
        ({ buffer := s.buffer.set s.index (xs.getD n 0),
           index := (s.index + 1) % s.period,
           sum := s.sum - s.buffer.getD s.index 0 + xs.getD n 0,
           count := s.count, period := s.period, filled := true },
         (s.sum - s.buffer.getD s.index 0 + xs.getD n 0) / (s.period : ℚ)) := by
      unfold MovingAverage.add
      rw [hget, hfil']
      simp only [hper0, ite_false, ite_true, eq_self_iff_true, if_false, if_true]
    refine ⟨{ buffer := s.buffer.set s.index (xs.getD n 0),
              index := (s.index + 1) % s.period,
              sum := s.sum - s.buffer.getD s.index 0 + xs.getD n 0,
              count := s.count, period := s.period, filled := true }, ?_, ?_⟩
    · rw [hadd]
      congr 2
      rw [hsum', hper]
      unfold winAvg
      rw [hmin1]
    · refine ⟨hper, ?_, ?_, ?_, ?_, ?_, hbufstep⟩
      · show (s.buffer.set s.index (xs.getD n 0)).length = P
        rw [List.length_set, hlen]
      · show (s.index + 1) % s.period = (n + 1) % P
        rw [hidx, hper]
        have hdm := Nat.mod_add_div n P
        have h : n + 1 = n % P + 1 + P * (n / P) := by omega
        rw [show (n + 1) % P = (n % P + 1) % P by rw [h, Nat.add_mul_mod_self_left]]
      · show s.count = min (n + 1) P
        rw [hcnt, hminn, hmin1]
      · show true = decide (P ≤ n + 1)
        exact (decide_eq_true (by omega : P ≤ n + 1)).symm
      · show s.sum - s.buffer.getD s.index 0 + xs.getD n 0
            = ∑ t ∈ Finset.Ico (n + 1 - min (n + 1) P) (n + 1), xs.getD t 0
        rw [hmin1, hsum']
  · -- filling regime: the window grows
    have hfil' : s.filled = false := by
      rw [hfil]
      exact decide_eq_false hPn
    have hminn : min n P = n := by omega
    have hmin1 : min (n + 1) P = n + 1 := by omega
    have hsum' : s.sum + xs.getD n 0 = ∑ t ∈ Finset.Ico 0 (n + 1), xs.getD t 0 := by
      rw [hsum, hminn]
      rw [Finset.sum_Ico_succ_top (show (0:Nat) ≤ n by omega) (fun t => xs.getD t 0)]
      rw [show n - n = 0 by omega]
    have hadd : s.add (xs.getD n 0) = some
        ({ buffer := s.buffer.set s.index (xs.getD n 0),
           index := (s.index + 1) % s.period,
           sum := s.sum + xs.getD n 0,
           count := s.count + 1, period := s.period,
           filled := decide (s.count + 1 = s.period) },
         if decide (s.count + 1 = s.period) = true
           then (s.sum + xs.getD n 0) / (s.period : ℚ)
           else (s.sum + xs.getD n 0) / ((s.count + 1 : Nat) : ℚ)) := by
      unfold MovingAverage.add
      rw [hget, hfil']
      simp only [hper0, ite_false, ite_true, eq_self_iff_true, if_false, if_true,
        Bool.false_eq_true]
    refine ⟨{ buffer := s.buffer.set s.index (xs.getD n 0),
              index := (s.index + 1) % s.period,
              sum := s.sum + xs.getD n 0,
              count := s.count + 1, period := s.period,
              filled := decide (s.count + 1 = s.period) }, ?_, ?_⟩
    · rw [hadd]
      congr 2
      by_cases hfull : s.count + 1 = s.period
      · have hfull' : n + 1 = P := by
          rw [hcnt, hminn, hper] at hfull
          exact hfull
        rw [if_pos (decide_eq_true hfull), hsum', hper]
        unfold winAvg
        rw [hmin1, show n + 1 - (n + 1) = 0 by omega, hfull']
      · rw [if_neg (by simp [hfull]), hsum', hcnt, hminn]
        unfold winAvg
        rw [hmin1, show n + 1 - (n + 1) = 0 by omega]
    · refine ⟨hper, ?_, ?_, ?_, ?_, ?_, hbufstep⟩
      · show (s.buffer.set s.index (xs.getD n 0)).length = P
        rw [List.length_set, hlen]
      · show (s.index + 1) % s.period = (n + 1) % P
        rw [hidx, hper]
        have hdm := Nat.mod_add_div n P
        have h : n + 1 = n % P + 1 + P * (n / P) := by omega
        rw [show (n + 1) % P = (n % P + 1) % P by rw [h, Nat.add_mul_mod_self_left]]
      · show s.count + 1 = min (n + 1) P
        rw [hcnt, hminn, hmin1]
      · show decide (s.count + 1 = s.period) = decide (P ≤ n + 1)
        rw [hcnt, hminn, hper]
        rw [decide_eq_decide]
        omega
      · show s.sum + xs.getD n 0
            = ∑ t ∈ Finset.Ico (n + 1 - min (n + 1) P) (n + 1), xs.getD t 0
        rw [hmin1, show n + 1 - (n + 1) = 0 by omega, hsum']

theorem maRun_spec (P : Nat) (xs : List ℚ) (hP : 0 < P) :
    ∀ (k n : Nat) (s : MovingAverage), n + k = xs.length → MAModels P xs n s →
    ∃ sF, MovingAverage.run s (xs.drop n)
      = some (sF, (List.range k).map (fun i => winAvg P xs (n + i))) := by
  intro k
  induction k with
  | zero =>
    intro n s hnk hm
    refine ⟨s, ?_⟩
    rw [List.drop_eq_nil_of_le (by omega)]
    rfl
  | succ k ih =>
    intro n s hnk hm
    have hn : n < xs.length := by omega
    have hdrop : xs.drop n = xs.getD n 0 :: xs.drop (n + 1) := by
      rw [List.drop_eq_getElem_cons hn]
      congr 1
      rw [List.getD_eq_getElem?_getD, List.getElem?_eq_getElem hn]
      rfl
    obtain ⟨s', hadd, hm'⟩ := maModels_step P xs n s hP hm hn
    obtain ⟨sF, hrun⟩ := ih (n + 1) s' (by omega) hm'
    refine ⟨sF, ?_⟩
    rw [hdrop]
    unfold MovingAverage.run
    rw [hadd]
    dsimp only
    rw [hrun]
    dsimp only
    rw [List.range_succ_eq_map, List.map_cons, List.map_map]
    have hcomp : ((fun i => winAvg P xs (n + i)) ∘ Nat.succ)
        = fun i => winAvg P xs (n + 1 + i) := by
      funext i
      show winAvg P xs (n + Nat.succ i) = winAvg P xs (n + 1 + i)
      congr 1
      omega
    rw [hcomp]
    norm_num

/-- C5: for a moving average of period P >= 1 fed the inputs xs, the k-th
returned average (0-indexed n) is the arithmetic mean of the last
min(n+1, P) inputs: the mean of the first n+1 inputs while the buffer
fills, and the mean of the most recent P inputs afterwards. -/
theorem C5_moving_average_outputs (P : Nat) (hP : 1 ≤ P) (xs : List ℚ) :
    MovingAverage.outputs P xs = some ((List.range xs.length).map (winAvg P xs)) := by
  obtain ⟨sF, hrun⟩ := maRun_spec P xs hP xs.length 0 (MovingAverage.new P)
    (by omega) (maModels_new P xs hP)
  unfold MovingAverage.outputs
  rw [List.drop_zero] at hrun
  rw [hrun, Option.map_some']
  congr 1
  show List.map (fun i => winAvg P xs (0 + i)) (List.range xs.length) = _
  apply List.map_congr_left
  intro i _
  rw [Nat.zero_add]

/-- C5 witness: period 3 on inputs 10, 20, 30, 40 yields the outputs
10, 15, 20, 30 claimed by the spec's seed test. -/
theorem C5_moving_average_outputs_witness :
    MovingAverage.outputs 3 [10, 20, 30, 40] = some [10, 15, 20, 30] := by
  have h := C5_moving_average_outputs 3 (by omega) [10, 20, 30, 40]
  rw [h]
  congr 1
  show [winAvg 3 [10, 20, 30, 40] 0, winAvg 3 [10, 20, 30, 40] 1,
    winAvg 3 [10, 20, 30, 40] 2, winAvg 3 [10, 20, 30, 40] 3] = [10, 15, 20, 30]
  unfold winAvg
  norm_num [Finset.sum_Ico_eq_sum_range, Finset.sum_range_succ, Finset.sum_range_zero]

end TradeCaptain
